import Mathlib

/-!
Verification of the ftp package: an adapter exposing an FTP session as a
read-only filesystem (Open / Stat / ReadDir).  The definitions below are a
shallow embedding of `ftp.go` together with the parts of the Go standard
library it depends on (`path.Dir`, `path.Base`, `path.Clean`, `io.Copy`),
and of the data the external protocol client supplies (directory entries,
response streams, errors).
-/

namespace FtpFs

/-- One raw directory entry as reported by the protocol client
(`jlaftp.Entry`): name, link target, type code, size (uint64), and a
modification timestamp (modelled as an integer). -/
structure Entry where
  name : String
  target : String
  typ : Nat
  size : Nat
  time : Int
deriving DecidableEq

/-- `jlaftp.EntryTypeFile` (iota = 0). -/
def EntryTypeFile : Nat := 0

/-- `jlaftp.EntryTypeFolder` (iota = 1). -/
def EntryTypeFolder : Nat := 1

/-- `jlaftp.EntryTypeLink` (iota = 2). -/
def EntryTypeLink : Nat := 2

/-- Go `io/fs.ModeDir = 1 << 31`. -/
def ModeDir : Nat := 2 ^ 31

/-- Go `io/fs.ModeSymlink = 1 << 27`. -/
def ModeSymlink : Nat := 2 ^ 27

/-- Go error values as this package produces and consumes them:
`base` is an arbitrary underlying error from the session or stream,
`eof` is the `io.EOF` sentinel, `wrap inner msg` is `errors.Wrap(inner, msg)`,
and `notFound b sibs` models `errors.Errorf("%s %+v", base, derefed)` from
`getEntry` — the message formats the searched base name together with the
dereferenced sibling entries, so the value carries both. -/
inductive GoErr where
  | base (msg : String)
  | eof
  | wrap (inner : GoErr) (msg : String)
  | notFound (b : String) (siblings : List Entry)
deriving DecidableEq

/-- Follow the `errors.Wrap` cause chain to the original error
(`errors.Cause` in pkg/errors). -/
def GoErr.rootCause : GoErr → GoErr
  | .wrap inner _ => inner.rootCause
  | e => e

/-- The context message attached by the outermost `errors.Wrap`, if any. -/
def GoErr.wrapCtx : GoErr → Option String
  | .wrap _ m => some m
  | _ => none

/-- `fileinfo` from ftp.go: wraps one protocol entry. -/
structure fileinfo where
  e : Entry
deriving DecidableEq

/-- `func (info fileinfo) Name() string { return info.e.Name }` -/
def fileinfo.Name (info : fileinfo) : String := info.e.name

/-- Go conversion `int64(n)` of a `uint64` value `n < 2^64`:
two's-complement reinterpretation. -/
def int64ofUint64 (n : Nat) : Int :=
  if n < 2 ^ 63 then (n : Int) else (n : Int) - 2 ^ 64

/-- `func (info fileinfo) Size() int64 { return int64(info.e.Size) }` -/
def fileinfo.Size (info : fileinfo) : Int := int64ofUint64 info.e.size

/-- `func (info fileinfo) Mode() fs.FileMode`: switch on the entry type;
the `default` branch of the Go switch is a `panic`, modelled as `none`
(no mode value is ever returned to the caller there). -/
def fileinfo.Mode (info : fileinfo) : Option Nat :=
  if info.e.typ = EntryTypeFile then some 0
  else if info.e.typ = EntryTypeFolder then some ModeDir
  else if info.e.typ = EntryTypeLink then some ModeSymlink
  else none

/-- `func (info fileinfo) ModTime() time.Time { return info.e.Time }` -/
def fileinfo.ModTime (info : fileinfo) : Int := info.e.time

/-- `func (info fileinfo) IsDir() bool { return info.e.Type == jlaftp.EntryTypeFolder }` -/
def fileinfo.IsDir (info : fileinfo) : Bool := info.e.typ == EntryTypeFolder

/-- `func (info fileinfo) Sys() any { return info.e }` -/
def fileinfo.Sys (info : fileinfo) : Entry := info.e

/-! ### Go `path` package (lexical path manipulation used by `getEntry`) -/

/-- Split a character list on `'/'` (the segment decomposition used by
`path.Clean`); splitting the empty list yields one empty segment. -/
def splitSlash : List Char → List (List Char)
  | [] => [[]]
  | c :: cs =>
    if c = '/' then [] :: splitSlash cs
    else
      match splitSlash cs with
      | [] => [[c]]
      | s :: ss => (c :: s) :: ss

/-- One step of `path.Clean`'s element processing, operating on the stack of
output components (most recent first).  Empty and `"."` segments are
dropped; `".."` pops a component when one is available (for a rooted path a
leading `".."` is dropped; for a relative path it is kept). -/
def cleanStep (rooted : Bool) (st : List (List Char)) (seg : List Char) : List (List Char) :=
  if seg = [] then st
  else if seg = ['.'] then st
  else if seg = ['.', '.'] then
    if rooted then st.tail
    else
      match st with
      | [] => [['.', '.']]
      | top :: rest => if top = ['.', '.'] then ['.', '.'] :: top :: rest else rest
  else seg :: st

/-- Go `path.Clean` on a character list: returns `"."` for the empty path,
otherwise processes the slash-separated segments and reassembles them,
keeping a leading slash for rooted paths; an empty result becomes `"/"`
(rooted) or `"."` (relative). -/
def cleanList (p : List Char) : List Char :=
  if p = [] then ['.']
  else
    let rooted : Bool := p.head? == some '/'
    let comps := ((splitSlash p).foldl (cleanStep rooted) []).reverse
    if comps = [] then (if rooted then ['/'] else ['.'])
    else (if rooted then ['/'] else []) ++ List.intercalate ['/'] comps

/-- Go `path.Split` on a character list: everything up to and including the
final slash, and the remainder. -/
def splitPath : List Char → List Char × List Char
  | [] => ([], [])
  | c :: cs =>
    if cs.contains '/' then
      ((c :: (splitPath cs).1), (splitPath cs).2)
    else if c = '/' then ([c], cs)
    else ([], c :: cs)

/-- Go `path.Clean` on strings. -/
def pathClean (s : String) : String := ⟨cleanList s.data⟩

/-- Go `path.Dir`: `Clean` of the directory part of `Split`. -/
def pathDir (s : String) : String := ⟨cleanList (splitPath s.data).1⟩

/-- Go `path.Base` on a character list: `"."` for the empty path; strip
trailing slashes; a path of only slashes gives `"/"`; otherwise the part
after the final slash. -/
def baseList (p : List Char) : List Char :=
  if p = [] then ['.']
  else
    let q := (p.reverse.dropWhile (fun c => c == '/')).reverse
    if q = [] then ['/']
    else
      let f := (splitPath q).2
      if f = [] then ['/'] else f

/-- Go `path.Base` on strings. -/
def pathBase (s : String) : String := ⟨baseList s.data⟩

example : pathClean "abc//def//ghi" = "abc/def/ghi" := by decide
example : pathClean "abc/def/../ghi/../jkl" = "abc/jkl" := by decide
example : pathClean "/abc/def/../../.." = "/" := by decide
example : pathClean "abc/def/../../../ghi/jkl/../../../mno" = "../../mno" := by decide
example : pathClean "a/b/c/" = "a/b/c" := by decide
example : pathClean "./" = "." := by decide
example : pathClean "" = "." := by decide
example : pathDir "a/b" = "a" := by decide
example : pathDir "a/b/" = "a/b" := by decide
example : pathDir "/" = "/" := by decide
example : pathDir "abc" = "." := by decide
example : pathBase "a/b" = "b" := by decide
example : pathBase "a/b/" = "b" := by decide
example : pathBase "/" = "/" := by decide
example : pathBase "" = "." := by decide

/-! ### Response streams (`*jlaftp.Response`) and `File` -/

/-- Model of an open data-stream response: the bytes not yet read, an
optional error the stream reports once the data is exhausted (`none` means
a clean `io.EOF`), and an optional error from closing the underlying
connection. -/
structure Resp where
  data : List Nat
  failAfter : Option GoErr
  closeErr : Option GoErr
deriving DecidableEq

/-- One call `resp.Read(b)` with a buffer of size `k`: while data remains it
returns some bytes and no error; once the data is exhausted it reports the
stream's terminal status (`io.EOF` on a clean end). -/
def Resp.read (r : Resp) (k : Nat) : Nat × Option GoErr × Resp :=
  if r.data = [] then
    match r.failAfter with
    | some e => (0, some e, r)
    | none => (0, some GoErr.eof, r)
  else
    let n := min k r.data.length
    (n, none, { r with data := r.data.drop n })

theorem read_progress (r : Resp) (k : Nat) (hk : 1 ≤ k)
    (h : (r.read k).2.1 = none) :
    (r.read k).2.2.data.length < r.data.length := by
  unfold Resp.read at *
  by_cases hd : r.data = []
  · rw [if_pos hd] at h
    cases hf : r.failAfter <;> simp [hf] at h
  · rw [if_neg hd] at h ⊢
    simp only [List.length_drop]
    have hlen : 1 ≤ r.data.length := by
      cases hdd : r.data with
      | nil => exact absurd hdd hd
      | cons a l => simp [hdd]
    have : 1 ≤ min k r.data.length := le_min hk hlen
    omega

/-- Go `io.Copy(io.Discard, r)`: repeatedly read (buffer 32768) and discard
until the stream reports a terminal status; `io.EOF` terminates with
success, any other error is returned.  Returns the byte count, the error,
and the stream's final state. -/
def copyDiscard (r : Resp) : Nat × Option GoErr × Resp :=
  match h : (r.read 32768).2.1 with
  | some e =>
    if e = GoErr.eof then ((r.read 32768).1, none, (r.read 32768).2.2)
    else ((r.read 32768).1, some e, (r.read 32768).2.2)
  | none =>
    let rest := copyDiscard (r.read 32768).2.2
    ((r.read 32768).1 + rest.1, rest.2.1, rest.2.2)
termination_by r.data.length
decreasing_by
  exact read_progress r 32768 (by omega) h

/-- `File` from ftp.go: metadata captured at open time plus the response
stream. -/
structure File where
  info : fileinfo
  resp : Resp
deriving DecidableEq

/-- `func (f *File) Stat() (fs.FileInfo, error) { return f.info, nil }` -/
def File.Stat (f : File) : fileinfo × Option GoErr := (f.info, none)

/-- `File.Read` from ftp.go, as a function of the result `(n, err)` of the
underlying `f.resp.Read(b)` call: `io.EOF` is passed through unchanged,
any other non-nil error is wrapped by `errors.Wrap(err, "")`, and a nil
error is passed through. -/
def File.ReadResult (n : Nat) (err : Option GoErr) : Nat × Option GoErr :=
  if err = some GoErr.eof then (n, err)
  else
    match err with
    | some e => (n, some (GoErr.wrap e ""))
    | none => (n, none)

/-- `func (f *File) Read(b []byte) (int, error)` with a buffer of size `k`,
composed with the stream model. -/
def File.Read (f : File) (k : Nat) : Nat × Option GoErr × File :=
  let s := f.resp.read k
  let res := File.ReadResult s.1 s.2.1
  (res.1, res.2, { f with resp := s.2.2 })

/-- The operations `File.Close` issues on its stream, in order. -/
inductive CloseAction where
  | drainToEnd
  | closeStream
deriving DecidableEq

/-- `func (f *File) Close() error`: first `io.Copy(io.Discard, f.resp)`
(the drain working around jlaffaye/ftp issue 214); if that fails the
wrapped error is returned and `f.resp.Close()` is never called; otherwise
`f.resp.Close()` is called and its error, if any, is wrapped and returned
(the Go code also logs it).  The second component is the ordered trace of
stream operations issued. -/
def File.Close (f : File) : Option GoErr × List CloseAction :=
  match (copyDiscard f.resp).2.1 with
  | some e => (some (GoErr.wrap e ""), [CloseAction.drainToEnd])
  | none =>
    match f.resp.closeErr with
    | some e => (some (GoErr.wrap e ""), [CloseAction.drainToEnd, CloseAction.closeStream])
    | none => (none, [CloseAction.drainToEnd, CloseAction.closeStream])

/-! ### The session collaborator and `FS` -/

/-- The two session operations ftp.go consumes from `*jlaftp.ServerConn`:
`List` and `Retr`. -/
structure Session where
  list : String → Except GoErr (List Entry)
  retr : String → Except GoErr Resp

/-- `FS` from ftp.go: holds the connection. -/
structure FS where
  c : Session

/-- `func NewFS(c *jlaftp.ServerConn) *FS` -/
def NewFS (c : Session) : FS := ⟨c⟩

/-- `func (fs *FS) getEntry(name string) (*jlaftp.Entry, error)`: list the
parent directory (`path.Dir`), wrap a listing failure with the parent path
as context, then scan for the first entry whose name equals `path.Base`;
if none matches, fail with the not-found error carrying the base name and
the dereferenced sibling entries. -/
def FS.getEntry (fsys : FS) (name : String) : Except GoErr Entry :=
  let parent := pathDir name
  match fsys.c.list parent with
  | Except.error err => Except.error (GoErr.wrap err parent)
  | Except.ok entries =>
    let b := pathBase name
    match entries.find? (fun e => e.name == b) with
    | some e => Except.ok e
    | none => Except.error (GoErr.notFound b entries)

/-- `func (fs *FS) Stat(name string) (fs.FileInfo, error)` -/
def FS.Stat (fsys : FS) (name : String) : Except GoErr fileinfo :=
  match fsys.getEntry name with
  | Except.error err => Except.error (GoErr.wrap err "")
  | Except.ok entry => Except.ok ⟨entry⟩

/-- `func (fs *FS) Open(name string) (fs.File, error)`: resolve the entry,
then `Retr` the data stream.  The boolean records whether `Retr` was
issued on the session. -/
def FS.Open (fsys : FS) (name : String) : Except GoErr File × Bool :=
  match fsys.getEntry name with
  | Except.error err => (Except.error (GoErr.wrap err ""), false)
  | Except.ok entry =>
    match fsys.c.retr name with
    | Except.error err => (Except.error (GoErr.wrap err ""), true)
    | Except.ok resp => (Except.ok { info := ⟨entry⟩, resp := resp }, true)

/-- The pure part of `FS.ReadDir` applied to the listing: sort by name
(`sort.Slice` with `entries[i].Name < entries[j].Name`, modelled by a merge
sort under the complementary `≤` comparison), then drop entries named `"."`
or `".."` and wrap the rest (`fs.FileInfoToDirEntry` keeps the fileinfo). -/
def readDirEntries (entries : List Entry) : List fileinfo :=
  let sorted := entries.mergeSort (fun a b => decide (a.name ≤ b.name))
  (sorted.filter (fun e => !(e.name == ".") && !(e.name == ".."))).map (fun e => ⟨e⟩)

/-- `func (fsys *FS) ReadDir(name string) ([]fs.DirEntry, error)` -/
def FS.ReadDir (fsys : FS) (name : String) : Except GoErr (List fileinfo) :=
  match fsys.c.list name with
  | Except.error err => Except.error (GoErr.wrap err "")
  | Except.ok entries => Except.ok (readDirEntries entries)

/-! ### Resolution lemmas -/

theorem stat_find_some (fsys : FS) (name : String) (es : List Entry) (e : Entry)
    (h : fsys.c.list (pathDir name) = Except.ok es)
    (hf : es.find? (fun x => x.name == pathBase name) = some e) :
    fsys.Stat name = Except.ok ⟨e⟩ := by
  simp only [FS.Stat, FS.getEntry, h, hf]

theorem stat_find_none (fsys : FS) (name : String) (es : List Entry)
    (h : fsys.c.list (pathDir name) = Except.ok es)
    (hf : es.find? (fun x => x.name == pathBase name) = none) :
    fsys.Stat name = Except.error (GoErr.wrap (GoErr.notFound (pathBase name) es) "") := by
  simp only [FS.Stat, FS.getEntry, h, hf]

theorem stat_ok_iff (fsys : FS) (name : String) (es : List Entry)
    (h : fsys.c.list (pathDir name) = Except.ok es) :
    (∃ info, fsys.Stat name = Except.ok info) ↔ ∃ e ∈ es, e.name = pathBase name := by
  cases hf : es.find? (fun x => x.name == pathBase name) with
  | some e =>
    rw [stat_find_some fsys name es e h hf]
    constructor
    · intro _
      exact ⟨e, List.mem_of_find?_eq_some hf, by simpa using List.find?_some hf⟩
    · intro _
      exact ⟨⟨e⟩, rfl⟩
  | none =>
    rw [stat_find_none fsys name es h hf]
    constructor
    · rintro ⟨info, hinfo⟩
      simp at hinfo
    · rintro ⟨e, he, hname⟩
      have := List.find?_eq_none.mp hf e he
      simp [hname] at this

/-! ### Concrete sessions used as witnesses -/

def entB : Entry := { name := "b", target := "", typ := 0, size := 4, time := 5 }

def entC : Entry := { name := "c", target := "", typ := 1, size := 0, time := 6 }

def respBytes : Resp := { data := [104, 105], failAfter := none, closeErr := none }

def sessA : Session :=
  { list := fun p => if p = "a" then Except.ok [entC, entB] else Except.error (GoErr.base "550"),
    retr := fun p => if p = "a/b" then Except.ok respBytes else Except.error (GoErr.base "550") }

def fsA : FS := ⟨sessA⟩

/-- C1: for a path `p` with parent `d = path.Dir p` and base `b = path.Base p`,
when the session's `list d` returns entries, `FS.Stat p` succeeds iff some
entry's name equals `b` exactly; on success the returned metadata's `Name()`
equals `b` and the returned entry is the first match in listing order
(`find?`). -/
theorem stat_resolution (fsys : FS) (name : String) (es : List Entry)
    (h : fsys.c.list (pathDir name) = Except.ok es) :
    ((∃ info, fsys.Stat name = Except.ok info) ↔ ∃ e ∈ es, e.name = pathBase name) ∧
    (∀ info, fsys.Stat name = Except.ok info →
      info.Name = pathBase name ∧
      es.find? (fun e => e.name == pathBase name) = some info.e) := by
  refine ⟨stat_ok_iff fsys name es h, ?_⟩
  intro info hinfo
  cases hf : es.find? (fun e => e.name == pathBase name) with
  | some e =>
    rw [stat_find_some fsys name es e h hf] at hinfo
    have hie : info = ⟨e⟩ := by
      have := hinfo
      simp at this
      exact this.symm
    subst hie
    refine ⟨?_, by simpa using hf⟩
    have hpe := List.find?_some hf
    simpa [fileinfo.Name] using hpe
  | none =>
    rw [stat_find_none fsys name es h hf] at hinfo
    simp at hinfo

/-- C1 witness: the theorem applied to a concrete session where the parent
listing of `"a/b"` is `[entC, entB]`. -/
theorem stat_resolution_witness :
    fsA.c.list (pathDir "a/b") = Except.ok [entC, entB] ∧
    (((∃ info, fsA.Stat "a/b" = Except.ok info) ↔ ∃ e ∈ [entC, entB], e.name = pathBase "a/b") ∧
     (∀ info, fsA.Stat "a/b" = Except.ok info →
       info.Name = pathBase "a/b" ∧
       [entC, entB].find? (fun e => e.name == pathBase "a/b") = some info.e)) :=
  ⟨rfl, stat_resolution fsA "a/b" [entC, entB] rfl⟩

/-- C3: when no entry of the parent listing matches the base name, `Open`
fails with the wrapped Not-Found error and the retrieve call is never
issued on the session; in general a retrieve is issued only when
resolution succeeded. -/
theorem open_notfound_no_retrieve (fsys : FS) (name : String) (es : List Entry)
    (hlist : fsys.c.list (pathDir name) = Except.ok es)
    (hnone : ∀ e ∈ es, e.name ≠ pathBase name) :
    (fsys.Open name).2 = false ∧
    (fsys.Open name).1 = Except.error (GoErr.wrap (GoErr.notFound (pathBase name) es) "") ∧
    (∀ (g : FS) (m : String), (g.Open m).2 = true → ∃ e, g.getEntry m = Except.ok e) := by
  have hf : es.find? (fun x => x.name == pathBase name) = none :=
    List.find?_eq_none.mpr (fun x hx => by simpa using hnone x hx)
  have hge : fsys.getEntry name = Except.error (GoErr.notFound (pathBase name) es) := by
    simp only [FS.getEntry, hlist, hf]
  refine ⟨by simp only [FS.Open, hge], by simp only [FS.Open, hge], ?_⟩
  intro g m hgm
  cases hge' : g.getEntry m with
  | error err => simp [FS.Open, hge'] at hgm
  | ok e => exact ⟨e, rfl⟩

/-- C3 witness: the theorem applied to a concrete session where the parent
listing of `"a/zz"` contains no entry named `"zz"`. -/
theorem open_notfound_no_retrieve_witness :
    (fsA.c.list (pathDir "a/zz") = Except.ok [entC, entB] ∧
     (∀ e ∈ [entC, entB], e.name ≠ pathBase "a/zz")) ∧
    ((fsA.Open "a/zz").2 = false ∧
     (fsA.Open "a/zz").1 =
       Except.error (GoErr.wrap (GoErr.notFound (pathBase "a/zz") [entC, entB]) "") ∧
     (∀ (g : FS) (m : String), (g.Open m).2 = true → ∃ e, g.getEntry m = Except.ok e)) :=
  ⟨⟨rfl, by decide⟩, open_notfound_no_retrieve fsA "a/zz" [entC, entB] rfl (by decide)⟩

/-- C7: when resolution finds no match, `Stat` and `Open` both return an
error whose root cause is the Not-Found error carrying the attempted base
name and the full sibling listing. -/
theorem notfound_carries_diagnostics (fsys : FS) (name : String) (es : List Entry)
    (hlist : fsys.c.list (pathDir name) = Except.ok es)
    (hnone : ∀ e ∈ es, e.name ≠ pathBase name) :
    fsys.Stat name = Except.error (GoErr.wrap (GoErr.notFound (pathBase name) es) "") ∧
    (fsys.Open name).1 = Except.error (GoErr.wrap (GoErr.notFound (pathBase name) es) "") ∧
    (GoErr.wrap (GoErr.notFound (pathBase name) es) "").rootCause =
      GoErr.notFound (pathBase name) es := by
  have hf : es.find? (fun x => x.name == pathBase name) = none :=
    List.find?_eq_none.mpr (fun x hx => by simpa using hnone x hx)
  have hge : fsys.getEntry name = Except.error (GoErr.notFound (pathBase name) es) := by
    simp only [FS.getEntry, hlist, hf]
  exact ⟨stat_find_none fsys name es hlist hf, by simp only [FS.Open, hge], rfl⟩

/-- C7 witness: the theorem applied to a concrete session and an absent
base name. -/
theorem notfound_carries_diagnostics_witness :
    (fsA.c.list (pathDir "a/nope") = Except.ok [entC, entB] ∧
     (∀ e ∈ [entC, entB], e.name ≠ pathBase "a/nope")) ∧
    (fsA.Stat "a/nope" =
       Except.error (GoErr.wrap (GoErr.notFound (pathBase "a/nope") [entC, entB]) "") ∧
     (fsA.Open "a/nope").1 =
       Except.error (GoErr.wrap (GoErr.notFound (pathBase "a/nope") [entC, entB]) "") ∧
     (GoErr.wrap (GoErr.notFound (pathBase "a/nope") [entC, entB]) "").rootCause =
       GoErr.notFound (pathBase "a/nope") [entC, entB]) :=
  ⟨⟨rfl, by decide⟩, notfound_carries_diagnostics fsA "a/nope" [entC, entB] rfl (by decide)⟩

/-! ### C8: error wrapping on listing failures -/

def sessFail : Session :=
  { list := fun _ => Except.error (GoErr.base "boom"),
    retr := fun _ => Except.error (GoErr.base "boom") }

def fsFail : FS := ⟨sessFail⟩

/-- C8 counterexample: when the session's listing fails, `ReadDir "d"`
wraps the failure with an empty context message, not with the directory
path `"d"`. -/
theorem readdir_empty_context_counterexample :
    fsFail.ReadDir "d" = Except.error (GoErr.wrap (GoErr.base "boom") "") ∧
    (GoErr.wrap (GoErr.base "boom") "").wrapCtx = some "" ∧
    some "" ≠ some "d" :=
  ⟨rfl, rfl, by decide⟩

/-- C8 amended: a listing failure makes `ReadDir` fail with the wrapped
underlying error and no partial result, but the attached context message
is empty rather than the directory path (the cause chain is preserved);
only `getEntry` attaches the parent path as context to a listing failure,
and `Stat` wraps `getEntry`'s error once more with an empty message. -/
theorem error_wrapping (fsys : FS) (name : String) (err : GoErr) :
    (fsys.c.list name = Except.error err →
      fsys.ReadDir name = Except.error (GoErr.wrap err "") ∧
      (GoErr.wrap err "").rootCause = err.rootCause) ∧
    (fsys.c.list (pathDir name) = Except.error err →
      fsys.getEntry name = Except.error (GoErr.wrap err (pathDir name)) ∧
      fsys.Stat name = Except.error (GoErr.wrap (GoErr.wrap err (pathDir name)) "")) := by
  constructor
  · intro h
    exact ⟨by simp only [FS.ReadDir, h], rfl⟩
  · intro h
    have hge : fsys.getEntry name = Except.error (GoErr.wrap err (pathDir name)) := by
      simp only [FS.getEntry, h]
    exact ⟨hge, by simp only [FS.Stat, hge]⟩

/-- C8 witness: the amended theorem applied to a session whose listings
all fail. -/
theorem error_wrapping_witness :
    fsFail.c.list "d" = Except.error (GoErr.base "boom") ∧
    fsFail.c.list (pathDir "d") = Except.error (GoErr.base "boom") ∧
    (fsFail.ReadDir "d" = Except.error (GoErr.wrap (GoErr.base "boom") "") ∧
     (GoErr.wrap (GoErr.base "boom") "").rootCause = (GoErr.base "boom").rootCause) ∧
    (fsFail.getEntry "d" = Except.error (GoErr.wrap (GoErr.base "boom") (pathDir "d")) ∧
     fsFail.Stat "d" =
       Except.error (GoErr.wrap (GoErr.wrap (GoErr.base "boom") (pathDir "d")) "")) :=
  ⟨rfl, rfl, (error_wrapping fsFail "d" (GoErr.base "boom")).1 rfl,
    (error_wrapping fsFail "d" (GoErr.base "boom")).2 rfl⟩

/-- C5: `File.Read` forwards the underlying stream result: `io.EOF` is
returned unwrapped together with the byte count, any other failure is
wrapped by `errors.Wrap` while the (possibly zero) byte count is kept, and
a successful read is passed through with no error. -/
theorem read_error_forwarding (n : Nat) (err : Option GoErr) :
    (err = some GoErr.eof → File.ReadResult n err = (n, some GoErr.eof)) ∧
    (∀ e, err = some e → e ≠ GoErr.eof → File.ReadResult n err = (n, some (GoErr.wrap e ""))) ∧
    (err = none → File.ReadResult n err = (n, none)) := by
  refine ⟨?_, ?_, ?_⟩
  · rintro rfl; rfl
  · rintro e rfl he
    simp [File.ReadResult, he]
  · rintro rfl; rfl

/-- C5 witness: the three cases at concrete inputs. -/
theorem read_error_forwarding_witness :
    (GoErr.base "reset" ≠ GoErr.eof) ∧
    File.ReadResult 3 (some GoErr.eof) = (3, some GoErr.eof) ∧
    File.ReadResult 3 (some (GoErr.base "reset")) = (3, some (GoErr.wrap (GoErr.base "reset") "")) ∧
    File.ReadResult 3 none = (3, none) :=
  ⟨by decide,
   (read_error_forwarding 3 (some GoErr.eof)).1 rfl,
   (read_error_forwarding 3 (some (GoErr.base "reset"))).2.1 (GoErr.base "reset") rfl (by decide),
   (read_error_forwarding 3 none).2.2 rfl⟩

/-- C6: mode translation is total over the three known entry types — file
maps to the regular mode `0`, folder to `ModeDir` with `IsDir` true, link
to `ModeSymlink` — and any other type value hits the `panic` in the Go
`default` branch, modelled as `none`: no mode value is ever returned to
the caller. -/
theorem mode_translation (e : Entry) :
    (e.typ = EntryTypeFile → fileinfo.Mode ⟨e⟩ = some 0) ∧
    (e.typ = EntryTypeFolder → fileinfo.Mode ⟨e⟩ = some ModeDir ∧ fileinfo.IsDir ⟨e⟩ = true) ∧
    (e.typ = EntryTypeLink → fileinfo.Mode ⟨e⟩ = some ModeSymlink) ∧
    (e.typ ≠ EntryTypeFile → e.typ ≠ EntryTypeFolder → e.typ ≠ EntryTypeLink →
      fileinfo.Mode ⟨e⟩ = none) := by
  refine ⟨?_, ?_, ?_, ?_⟩
  · intro h
    simp [fileinfo.Mode, h]
  · intro h
    simp [fileinfo.Mode, fileinfo.IsDir, h, EntryTypeFile, EntryTypeFolder]
  · intro h
    simp [fileinfo.Mode, h, EntryTypeFile, EntryTypeFolder, EntryTypeLink]
  · intro h1 h2 h3
    simp [fileinfo.Mode, h1, h2, h3]

def entL : Entry := { name := "l", target := "t", typ := 2, size := 0, time := 0 }

def entX : Entry := { name := "x", target := "", typ := 7, size := 0, time := 0 }

/-- C6 witness: all four branches of the translation at concrete entries. -/
theorem mode_translation_witness :
    (entB.typ = EntryTypeFile ∧ entC.typ = EntryTypeFolder ∧ entL.typ = EntryTypeLink ∧
     entX.typ ≠ EntryTypeFile ∧ entX.typ ≠ EntryTypeFolder ∧ entX.typ ≠ EntryTypeLink) ∧
    fileinfo.Mode ⟨entB⟩ = some 0 ∧
    (fileinfo.Mode ⟨entC⟩ = some ModeDir ∧ fileinfo.IsDir ⟨entC⟩ = true) ∧
    fileinfo.Mode ⟨entL⟩ = some ModeSymlink ∧
    fileinfo.Mode ⟨entX⟩ = none :=
  ⟨⟨rfl, rfl, rfl, by decide, by decide, by decide⟩,
   (mode_translation entB).1 rfl,
   (mode_translation entC).2.1 rfl,
   (mode_translation entL).2.2.1 rfl,
   (mode_translation entX).2.2.2 (by decide) (by decide) (by decide)⟩

/-- C10: `Size()` is the two's-complement reinterpretation of the raw
uint64 size as int64: it is congruent to the raw size modulo `2^64`, lies
in the int64 range, and is negative exactly when the raw size is at least
`2^63`. -/
theorem size_int64_reinterpretation (e : Entry) (h : e.size < 2 ^ 64) :
    fileinfo.Size ⟨e⟩ % (2 ^ 64 : Int) = (e.size : Int) % 2 ^ 64 ∧
    -(2 ^ 63) ≤ fileinfo.Size ⟨e⟩ ∧ fileinfo.Size ⟨e⟩ < 2 ^ 63 ∧
    (2 ^ 63 ≤ e.size → fileinfo.Size ⟨e⟩ < 0) := by
  have p63 : (2 : Int) ^ 63 = 9223372036854775808 := by norm_num
  have p64 : (2 : Int) ^ 64 = 18446744073709551616 := by norm_num
  have n63 : (2 : Nat) ^ 63 = 9223372036854775808 := by norm_num
  have n64 : (2 : Nat) ^ 64 = 18446744073709551616 := by norm_num
  rw [n64] at h
  simp only [fileinfo.Size, int64ofUint64, p63, p64, n63, n64]
  by_cases hc : e.size < 9223372036854775808
  · rw [if_pos hc]
    refine ⟨rfl, by omega, by omega, by omega⟩
  · rw [if_neg hc]
    refine ⟨by omega, by omega, by omega, by omega⟩

def entBig : Entry :=
  { name := "big", target := "", typ := 0, size := 2 ^ 63 + 1, time := 0 }

/-- C10 witness: a raw size of `2^63 + 1` yields a negative `Size()`. -/
theorem size_int64_reinterpretation_witness :
    entBig.size < 2 ^ 64 ∧
    (fileinfo.Size ⟨entBig⟩ % (2 ^ 64 : Int) = (entBig.size : Int) % 2 ^ 64 ∧
     -(2 ^ 63) ≤ fileinfo.Size ⟨entBig⟩ ∧ fileinfo.Size ⟨entBig⟩ < 2 ^ 63 ∧
     (2 ^ 63 ≤ entBig.size → fileinfo.Size ⟨entBig⟩ < 0)) :=
  ⟨by norm_num [entBig], size_int64_reinterpretation entBig (by norm_num [entBig])⟩

/-! ### C4: drain-before-close -/

theorem copyDiscard_eq_aux (n : Nat) : ∀ (data : List Nat) (fa ce : Option GoErr),
    data.length = n →
    copyDiscard ⟨data, fa, ce⟩ =
      (n,
       (match fa with | some e => if e = GoErr.eof then none else some e | none => none),
       ⟨[], fa, ce⟩) := by
  induction n using Nat.strong_induction_on with
  | _ n ih =>
    intro data fa ce hn
    cases data with
    | nil =>
      cases fa with
      | none =>
        rw [copyDiscard]
        simp_all [Resp.read]
      | some e =>
        rw [copyDiscard]
        by_cases he : e = GoErr.eof <;> simp_all [Resp.read]
    | cons c cs =>
      have hread : Resp.read ⟨c :: cs, fa, ce⟩ 32768 =
          (min 32768 (c :: cs).length, none,
           ⟨(c :: cs).drop (min 32768 (c :: cs).length), fa, ce⟩) := by
        simp [Resp.read]
      rw [copyDiscard]
      split
      next e h =>
        rw [hread] at h
        cases h
      next h =>
        have hlt : ((c :: cs).drop (min 32768 (c :: cs).length)).length < n := by
          simp only [List.length_drop, List.length_cons] at hn ⊢
          omega
        simp only [List.length_cons] at hn
        rw [hread]
        rw [ih _ hlt _ fa ce rfl]
        simp only [Prod.mk.injEq, List.length_drop, List.length_cons]
        constructor
        · omega
        · trivial

/-- `io.Copy(io.Discard, r)` copies all remaining bytes, leaves the stream
empty, and fails exactly when the stream reports a non-EOF terminal
error. -/
theorem copyDiscard_eq (r : Resp) :
    copyDiscard r =
      (r.data.length,
       (match r.failAfter with | some e => if e = GoErr.eof then none else some e | none => none),
       { r with data := [] }) := by
  obtain ⟨data, fa, ce⟩ := r
  exact copyDiscard_eq_aux data.length data fa ce rfl

/-- C4: `Close` always issues the drain first; the underlying stream close
is issued exactly when the drain succeeded; a stream with no pending
failure drains successfully (emptying the remaining bytes); and when the
stream is already consumed the drain is a no-op success copying zero
bytes. -/
theorem close_drain_before_close (f : File) :
    (f.Close).2.head? = some CloseAction.drainToEnd ∧
    (CloseAction.closeStream ∈ (f.Close).2 ↔ (copyDiscard f.resp).2.1 = none) ∧
    (f.resp.failAfter = none →
      (copyDiscard f.resp).2.1 = none ∧ (copyDiscard f.resp).2.2.data = []) ∧
    (f.resp.data = [] ∧ f.resp.failAfter = none →
      copyDiscard f.resp = (0, none, f.resp)) := by
  obtain ⟨info, data, fa, ce⟩ := f
  refine ⟨?_, ?_, ?_, ?_⟩
  · cases hm : (copyDiscard ⟨data, fa, ce⟩).2.1 with
    | none => cases ce <;> simp [File.Close, hm]
    | some e => simp [File.Close, hm]
  · cases hm : (copyDiscard ⟨data, fa, ce⟩).2.1 with
    | none => cases ce <;> simp [File.Close, hm]
    | some e => simp [File.Close, hm]
  · intro hfa
    have hfa' : fa = none := hfa
    rw [copyDiscard_eq]
    simp [hfa']
  · rintro ⟨hd, hfa⟩
    simp only at hd hfa
    subst hd hfa
    rw [copyDiscard_eq]
    simp

def respEmpty : Resp := { data := [], failAfter := none, closeErr := none }

def fileB : File := { info := ⟨entB⟩, resp := respBytes }

def fileEmpty : File := { info := ⟨entB⟩, resp := respEmpty }

/-- C4 witness: the theorem applied to a file with unread bytes and to a
file whose stream is already consumed. -/
theorem close_drain_before_close_witness :
    fileB.resp.failAfter = none ∧
    ((copyDiscard fileB.resp).2.1 = none ∧ (copyDiscard fileB.resp).2.2.data = []) ∧
    (fileEmpty.resp.data = [] ∧ fileEmpty.resp.failAfter = none) ∧
    copyDiscard fileEmpty.resp = (0, none, fileEmpty.resp) ∧
    (fileB.Close).2.head? = some CloseAction.drainToEnd ∧
    (CloseAction.closeStream ∈ (fileB.Close).2 ↔ (copyDiscard fileB.resp).2.1 = none) :=
  ⟨rfl, (close_drain_before_close fileB).2.2.1 rfl,
   ⟨rfl, rfl⟩, (close_drain_before_close fileEmpty).2.2.2 ⟨rfl, rfl⟩,
   (close_drain_before_close fileB).1, (close_drain_before_close fileB).2.1⟩

/-! ### C2: directory listing normalization -/

theorem pairwise_le_sortByName (l : List Entry) :
    (l.mergeSort (fun a b => decide (a.name ≤ b.name))).Pairwise
      (fun a b => a.name ≤ b.name) := by
  have h : (l.mergeSort (fun a b => decide (a.name ≤ b.name))).Pairwise
      (fun a b => decide (a.name ≤ b.name) = true) :=
    List.sorted_mergeSort
      (fun a b c hab hbc => by
        simp only [decide_eq_true_eq] at *
        exact le_trans hab hbc)
      (fun a b => by
        simp only [Bool.or_eq_true, decide_eq_true_eq]
        exact le_total a.name b.name)
      l
  exact h.imp (fun hab => by simpa using hab)

theorem pairwise_lt_of_le_nodup (l : List Entry)
    (hle : l.Pairwise (fun a b => a.name ≤ b.name))
    (hnd : (l.map Entry.name).Nodup) :
    l.Pairwise (fun a b => a.name < b.name) := by
  have hnd' : (l.map Entry.name).Pairwise (fun a b => a ≠ b) := hnd
  have hne : l.Pairwise (fun a b => a.name ≠ b.name) := List.pairwise_map.mp hnd'
  exact (hle.and hne).imp (fun h => lt_of_le_of_ne h.1 h.2)

theorem sorted_name_eq (l₁ l₂ : List Entry) (hp : l₁.Perm l₂)
    (h₁ : l₁.Pairwise (fun a b => a.name < b.name))
    (h₂ : l₂.Pairwise (fun a b => a.name < b.name)) : l₁ = l₂ := by
  haveI : IsAntisymm Entry (fun a b => a.name < b.name) :=
    ⟨fun a b hab hba => absurd hba (lt_asymm hab)⟩
  exact List.eq_of_perm_of_sorted hp h₁ h₂

theorem mergeSort_eq_of_perm_nodup (l l' : List Entry)
    (hnd : (l.map Entry.name).Nodup) (hp : l.Perm l') :
    l.mergeSort (fun a b => decide (a.name ≤ b.name)) =
    l'.mergeSort (fun a b => decide (a.name ≤ b.name)) := by
  have hperm :
      (l.mergeSort (fun a b => decide (a.name ≤ b.name))).Perm
        (l'.mergeSort (fun a b => decide (a.name ≤ b.name))) :=
    ((List.mergeSort_perm l _).trans hp).trans (List.mergeSort_perm l' _).symm
  have hnd₁ :
      ((l.mergeSort (fun a b => decide (a.name ≤ b.name))).map Entry.name).Nodup :=
    (((List.mergeSort_perm l _).map Entry.name).symm).nodup hnd
  have hnd₂ :
      ((l'.mergeSort (fun a b => decide (a.name ≤ b.name))).map Entry.name).Nodup :=
    (((List.mergeSort_perm l' _).map Entry.name).symm).nodup ((hp.map Entry.name).nodup hnd)
  exact sorted_name_eq _ _ hperm
    (pairwise_lt_of_le_nodup _ (pairwise_le_sortByName l) hnd₁)
    (pairwise_lt_of_le_nodup _ (pairwise_le_sortByName l') hnd₂)

def entDupA : Entry := { name := "a", target := "", typ := 0, size := 1, time := 0 }

def entDupB : Entry := { name := "a", target := "", typ := 0, size := 2, time := 0 }

theorem readDirEntries_dupAB :
    readDirEntries [entDupA, entDupB] = [⟨entDupA⟩, ⟨entDupB⟩] := by
  have hs : List.Pairwise (fun a b : Entry => decide (a.name ≤ b.name) = true)
      [entDupA, entDupB] := by
    simp [List.pairwise_cons, entDupA, entDupB]
  simp only [readDirEntries, List.mergeSort_of_sorted hs]
  decide

theorem readDirEntries_dupBA :
    readDirEntries [entDupB, entDupA] = [⟨entDupB⟩, ⟨entDupA⟩] := by
  have hs : List.Pairwise (fun a b : Entry => decide (a.name ≤ b.name) = true)
      [entDupB, entDupA] := by
    simp [List.pairwise_cons, entDupA, entDupB]
  simp only [readDirEntries, List.mergeSort_of_sorted hs]
  decide

/-- C2 counterexample: two sibling entries sharing the name "a" (a server
may report a name twice).  The two server orders are permutations of each
other, yet ReadDir's result differs between them, and it is not strictly
ordered by name. -/
theorem readdir_dup_counterexample :
    [entDupA, entDupB].Perm [entDupB, entDupA] ∧
    readDirEntries [entDupA, entDupB] ≠ readDirEntries [entDupB, entDupA] ∧
    ¬ (readDirEntries [entDupA, entDupB]).Pairwise (fun a b => a.e.name < b.e.name) := by
  refine ⟨by decide, ?_, ?_⟩
  · rw [readDirEntries_dupAB, readDirEntries_dupBA]
    decide
  · rw [readDirEntries_dupAB]
    simp [List.pairwise_cons, entDupA, entDupB]

/-- C2 (amended): ReadDir's result never contains entries named "." or ".."
(filtered unconditionally), and is sorted by name (non-strictly: the code
does not deduplicate repeated names).  When the server-reported names are
pairwise distinct the result is strictly ordered and deterministic — the
same for any server-reported order of the same entries. -/
theorem readdir_normalized (fsys : FS) (name : String) (l l' : List Entry)
    (h : fsys.c.list name = Except.ok l) :
    fsys.ReadDir name = Except.ok (readDirEntries l) ∧
    (∀ info ∈ readDirEntries l, info.e.name ≠ "." ∧ info.e.name ≠ "..") ∧
    (readDirEntries l).Pairwise (fun a b => a.e.name ≤ b.e.name) ∧
    ((l.map Entry.name).Nodup → l.Perm l' →
      readDirEntries l = readDirEntries l' ∧
      (readDirEntries l).Pairwise (fun a b => a.e.name < b.e.name)) := by
  refine ⟨by simp only [FS.ReadDir, h], ?_, ?_, ?_⟩
  · intro info hmem
    simp only [readDirEntries, List.mem_map, List.mem_filter] at hmem
    obtain ⟨e, ⟨_, hpe⟩, rfl⟩ := hmem
    simp only [Bool.and_eq_true, Bool.not_eq_true', beq_eq_false_iff_ne] at hpe
    exact hpe
  · have hs := pairwise_le_sortByName l
    simp only [readDirEntries]
    refine List.pairwise_map.mpr ?_
    exact hs.sublist (List.filter_sublist _)
  · intro hnd hp
    constructor
    · simp only [readDirEntries, mergeSort_eq_of_perm_nodup l l' hnd hp]
    · have hs := pairwise_le_sortByName l
      have hnd₁ :
          ((l.mergeSort (fun a b => decide (a.name ≤ b.name))).map Entry.name).Nodup :=
        (((List.mergeSort_perm l _).map Entry.name).symm).nodup hnd
      have hlt := pairwise_lt_of_le_nodup _ hs hnd₁
      simp only [readDirEntries]
      refine List.pairwise_map.mpr ?_
      exact hlt.sublist (List.filter_sublist _)

/-- C2 witness: the amended theorem applied to a concrete session whose
listing has distinct names, under two server orders. -/
theorem readdir_normalized_witness :
    fsA.c.list "a" = Except.ok [entC, entB] ∧
    ([entC, entB].map Entry.name).Nodup ∧
    [entC, entB].Perm [entB, entC] ∧
    (readDirEntries [entC, entB] = readDirEntries [entB, entC] ∧
     (readDirEntries [entC, entB]).Pairwise (fun a b => a.e.name < b.e.name)) ∧
    fsA.ReadDir "a" = Except.ok (readDirEntries [entC, entB]) :=
  ⟨rfl, by decide, by decide,
   (readdir_normalized fsA "a" [entC, entB] [entB, entC] rfl).2.2.2 (by decide) (by decide),
   (readdir_normalized fsA "a" [entC, entB] [entB, entC] rfl).1⟩

/-! ### C9: resolution is purely lexical in Dir/Base -/

theorem cleanStep_empty (r : Bool) (st : List (List Char)) : cleanStep r st [] = st := by
  simp [cleanStep]

theorem cleanStep_dot (r : Bool) (st : List (List Char)) : cleanStep r st ['.'] = st := by
  simp [cleanStep]

theorem splitSlash_ne_nil (l : List Char) : splitSlash l ≠ [] := by
  cases l with
  | nil => simp [splitSlash]
  | cons c cs =>
    simp only [splitSlash]
    by_cases hc : c = '/'
    · simp [hc]
    · rw [if_neg hc]
      cases h : splitSlash cs <;> simp

theorem splitSlash_append (xs ys : List Char) :
    splitSlash (xs ++ '/' :: ys) = splitSlash xs ++ splitSlash ys := by
  induction xs with
  | nil => simp [splitSlash]
  | cons c cs ih =>
    simp only [List.cons_append, splitSlash, List.append_eq, ih]
    by_cases hc : c = '/'
    · subst hc
      simp
    · rw [if_neg hc, if_neg hc]
      cases h : splitSlash cs with
      | nil => exact absurd h (splitSlash_ne_nil cs)
      | cons s ss => simp [h]

theorem cleanList_dot_segment (D : List Char) :
    cleanList (D ++ ['/', '.', '/']) = cleanList (D ++ ['/']) := by
  have h1 : ¬ (D ++ ['/', '.', '/']) = [] := by simp
  have h2 : ¬ (D ++ ['/']) = [] := by simp
  have hroot : ((D ++ ['/', '.', '/']).head? == some '/') = ((D ++ ['/']).head? == some '/') := by
    cases D <;> rfl
  have hs1 : splitSlash ['.', '/'] = [['.'], []] := rfl
  have hs2 : splitSlash ([] : List Char) = [[]] := rfl
  simp only [cleanList, if_neg h1, if_neg h2, hroot]
  rw [splitSlash_append D ['.', '/'], splitSlash_append D []]
  simp only [hs1, hs2, List.foldl_append, List.foldl_cons, List.foldl_nil,
    cleanStep_dot, cleanStep_empty]

theorem splitPath_append_no_slash (xs b : List Char)
    (hb : '/' ∉ b) :
    splitPath (xs ++ '/' :: b) = (xs ++ ['/'], b) := by
  induction xs with
  | nil => simp [splitPath, hb]
  | cons c cs ih => simp [splitPath, ih]

theorem baseList_append_no_slash (xs b : List Char)
    (hb : '/' ∉ b) (hne : b ≠ []) :
    baseList (xs ++ '/' :: b) = b := by
  have hp : ¬ (xs ++ '/' :: b) = [] := by simp
  cases hbr : b.reverse with
  | nil => exact absurd (by simpa using congrArg List.reverse hbr) hne
  | cons y ys =>
    have hy : y ∈ b := List.mem_reverse.mp (by rw [hbr]; exact List.mem_cons_self y ys)
    have hyney : y ≠ '/' := fun hh => hb (hh ▸ hy)
    have hyne : (y == '/') = false := by simpa using hyney
    have hform : (xs ++ '/' :: b).reverse = (y :: ys) ++ '/' :: xs.reverse := by
      rw [List.reverse_append, List.reverse_cons, hbr]
      simp [List.append_assoc]
    have hdrop : (xs ++ '/' :: b).reverse.dropWhile (fun c => c == '/') =
        (xs ++ '/' :: b).reverse := by
      rw [hform, List.cons_append, List.dropWhile_cons]
      rw [if_neg (by simp [hyne])]
    simp only [baseList, hdrop, List.reverse_reverse]
    rw [if_neg hp, if_neg hp, splitPath_append_no_slash xs b hb]
    simp [hne]

theorem pathDir_dot_segment (d b : String)
    (hb : '/' ∉ b.data) (hne : b.data ≠ []) :
    pathDir (d ++ "/./" ++ b) = pathDir (d ++ "/" ++ b) := by
  have hd1 : ("/./" : String).data = ['/', '.', '/'] := rfl
  have hd2 : ("/" : String).data = ['/'] := rfl
  have e1 : (d ++ "/./" ++ b).data = (d.data ++ ['/', '.']) ++ '/' :: b.data := by
    simp [hd1, List.append_assoc]
  have e2 : (d ++ "/" ++ b).data = d.data ++ '/' :: b.data := by
    simp [hd2]
  simp only [pathDir, e1, e2,
    splitPath_append_no_slash _ _ hb]
  have e3 : (d.data ++ ['/', '.']) ++ ['/'] = d.data ++ ['/', '.', '/'] := by
    simp [List.append_assoc]
  simp only [e3]
  rw [cleanList_dot_segment]

theorem pathBase_dot_segment (d b : String)
    (hb : '/' ∉ b.data) (hne : b.data ≠ []) :
    pathBase (d ++ "/./" ++ b) = pathBase (d ++ "/" ++ b) := by
  have hd1 : ("/./" : String).data = ['/', '.', '/'] := rfl
  have hd2 : ("/" : String).data = ['/'] := rfl
  have e1 : (d ++ "/./" ++ b).data = (d.data ++ ['/', '.']) ++ '/' :: b.data := by
    simp [hd1, List.append_assoc]
  have e2 : (d ++ "/" ++ b).data = d.data ++ '/' :: b.data := by
    simp [hd2]
  simp only [pathBase, e1, e2,
    baseList_append_no_slash _ _ hb hne]

def entSlash : Entry := { name := "/", target := "", typ := 1, size := 0, time := 0 }

def sessRoot : Session :=
  { list := fun p => if p = "/" then Except.ok [entSlash] else Except.error (GoErr.base "550"),
    retr := fun _ => Except.error (GoErr.base "550") }

def fsRoot : FS := ⟨sessRoot⟩

def sess9 : Session :=
  { list := fun p =>
      if p = "a" then Except.ok [entB]
      else if p = "a/b" then Except.ok []
      else Except.error (GoErr.base "550"),
    retr := fun _ => Except.error (GoErr.base "550") }

def fs9 : FS := ⟨sess9⟩

/-- C9 counterexample: trailing slashes change resolution.  `path.Dir`
of "a/b/" is "a/b" (the cleaned path itself) while `path.Dir` of "a/b" is
"a", so on a session where listing "a" contains "b" but listing "a/b" is
empty, `Stat "a/b"` succeeds while `Stat "a/b/"` fails. -/
theorem stat_trailing_slash_counterexample :
    pathDir "a/b/" = "a/b" ∧ pathDir "a/b" = "a" ∧
    pathBase "a/b/" = "b" ∧ pathBase "a/b" = "b" ∧
    fs9.Stat "a/b" = Except.ok ⟨entB⟩ ∧
    fs9.Stat "a/b/" = Except.error (GoErr.wrap (GoErr.notFound "b" []) "") :=
  ⟨by decide, by decide, by decide, by decide, rfl, rfl⟩

/-- C9 (amended): resolution depends only on `path.Dir` and `path.Base` of
the argument; inserting a redundant "." segment before the final segment
does not change either, so such paths resolve identically; but a trailing
slash changes the listed parent (see the counterexample).  For the root
path "/" both the listed parent and the searched base are "/", so
`Stat "/"` succeeds only if the root listing contains an entry literally
named "/". -/
theorem resolution_lexical (fsys : FS) (n₁ n₂ d b : String) (es : List Entry) :
    (pathDir n₁ = pathDir n₂ → pathBase n₁ = pathBase n₂ → fsys.Stat n₁ = fsys.Stat n₂) ∧
    ('/' ∉ b.data → b ≠ "" →
      pathDir (d ++ "/./" ++ b) = pathDir (d ++ "/" ++ b) ∧
      pathBase (d ++ "/./" ++ b) = pathBase (d ++ "/" ++ b)) ∧
    (pathDir "/" = "/" ∧ pathBase "/" = "/") ∧
    (fsys.c.list "/" = Except.ok es →
      ((∃ info, fsys.Stat "/" = Except.ok info) ↔ ∃ e ∈ es, e.name = "/")) := by
  refine ⟨?_, ?_, ⟨by decide, by decide⟩, ?_⟩
  · intro h1 h2
    simp only [FS.Stat, FS.getEntry, h1, h2]
  · intro hb hne
    have hne' : b.data ≠ [] := fun hh => hne (String.ext hh)
    exact ⟨pathDir_dot_segment d b hb hne', pathBase_dot_segment d b hb hne'⟩
  · intro h
    have h' : fsys.c.list (pathDir "/") = Except.ok es := by
      rw [show pathDir "/" = "/" from by decide]
      exact h
    have hiff := stat_ok_iff fsys "/" es h'
    rw [show pathBase "/" = "/" from by decide] at hiff
    exact hiff

/-- C9 witness: the amended theorem applied to concrete paths "x/./y" and
"x/y", and to a root listing containing an entry named "/". -/
theorem resolution_lexical_witness :
    (pathDir "x/./y" = pathDir "x/y" ∧ pathBase "x/./y" = pathBase "x/y") ∧
    ('/' ∉ ("y" : String).data ∧ "y" ≠ "") ∧
    fsRoot.c.list "/" = Except.ok [entSlash] ∧
    fsRoot.Stat "x/./y" = fsRoot.Stat "x/y" ∧
    (pathDir ("x" ++ "/./" ++ "y") = pathDir ("x" ++ "/" ++ "y") ∧
     pathBase ("x" ++ "/./" ++ "y") = pathBase ("x" ++ "/" ++ "y")) ∧
    ((∃ info, fsRoot.Stat "/" = Except.ok info) ↔ ∃ e ∈ [entSlash], e.name = "/") :=
  ⟨⟨by decide, by decide⟩, ⟨by decide, by decide⟩, rfl,
   (resolution_lexical fsRoot "x/./y" "x/y" "x" "y" [entSlash]).1 (by decide) (by decide),
   (resolution_lexical fsRoot "x/./y" "x/y" "x" "y" [entSlash]).2.1 (by decide) (by decide),
   (resolution_lexical fsRoot "x/./y" "x/y" "x" "y" [entSlash]).2.2.2 rfl⟩

end FtpFs
